import Mathlib

/-!
Verification of the time-series parsing, aggregation, ranking and validator
resolution logic of the insights-mcp-server repository
(src/tools/observability_mcp/observability_mcp_api_tools.ts and
src/tools/registration.ts), as a shallow embedding in Lean.

JavaScript values flowing through the parsers are modelled by the `Json`
inductive below (the output domain of JSON.parse), with explicit models of
the JS operations the code uses: property access, optional chaining, index
zero access, truthiness, and Number() coercion. Machine floating point is
modelled by exact rationals; NaN (which can arise from Number() applied to a
non-numeric string) is modelled by the dedicated `JNum.nan` constructor.
All definitions are executable, so theorems can be instantiated on concrete
inputs by evaluation.
-/

namespace InsightsMcp

/-- A JSON value, the result domain of JSON.parse. Object fields are kept in
order of appearance; the data handled by this repository has no duplicate
keys, and lookups take the first occurrence. -/
inductive Json where
  | null
  | bool (b : Bool)
  | num (q : ℚ)
  | str (s : String)
  | arr (xs : List Json)
  | obj (fields : List (String × Json))

/-- A JS number: either an actual (finite) numeric value, modelled exactly as
a rational, or NaN, which Number() produces on non-numeric strings. -/
inductive JNum where
  | nan
  | val (q : ℚ)
deriving DecidableEq

/-- JS addition: NaN is absorbing. -/
def JNum.add : JNum → JNum → JNum
  | .val a, .val b => .val (a + b)
  | _, _ => .nan

/-- JS property access `v.key` (also `v?.key` when the receiver is packed in
an Option): objects yield the named field, every other value yields
undefined (modelled as none). -/
def getProp : Json → String → Option Json
  | .obj fields, key => (fields.find? (fun p => p.1 = key)).map (fun p => p.2)
  | _, _ => none

/-- JS index access `v[0]`: first element of an array, first character of a
nonempty string, the "0" property of an object, undefined otherwise. -/
def getIndex0 : Json → Option Json
  | .arr xs => xs.head?
  | .str s => if s.isEmpty then none else some (.str (String.singleton s.front))
  | .obj fields => getProp (.obj fields) "0"
  | _ => none

/-- JS truthiness of a possibly-undefined value: undefined, null, false, 0
and the empty string are falsy, everything else is truthy. -/
def truthy : Option Json → Bool
  | none => false
  | some .null => false
  | some (.bool b) => b
  | some (.num q) => q != 0
  | some (.str s) => s != ""
  | some (.arr _) => true
  | some (.obj _) => true

/-- Decimal value of a digit list (used by the Number() model). -/
def digitsVal (cs : List Char) : ℕ :=
  cs.foldl (fun a c => a * 10 + (c.toNat - 48)) 0

/-- Reads a string as an optionally signed decimal integer, as the JS
Number() coercion does on the int64Value strings produced by Cloud
Monitoring. The empty string converts to 0, exactly as in JS. JS also
accepts fractional and exponent forms, which this data never carries;
on such strings this model answers none (i.e. NaN). -/
def parseIntString (s : String) : Option ℤ :=
  let readDigits : List Char → Option ℤ := fun cs =>
    if cs.isEmpty then none
    else if cs.all Char.isDigit then some (digitsVal cs : ℤ) else none
  match s.toList with
  | [] => some 0
  | '-' :: rest => (readDigits rest).map (fun n => -n)
  | '+' :: rest => readDigits rest
  | cs => readDigits cs

/-- Model of the JS Number() coercion as applied to the int64Value field:
numbers convert to themselves, null to 0, booleans to 0/1, strings to their
decimal value (NaN when not numeric), arrays and objects to NaN (JS converts
a few degenerate arrays to numbers; no such value occurs in this data). -/
def toNumber : Json → JNum
  | .num q => .val q
  | .null => .val 0
  | .bool b => .val (if b then 1 else 0)
  | .str s => match parseIntString s with
      | some n => .val (n : ℚ)
      | none => .nan
  | .arr _ => .nan
  | .obj _ => .nan

/-- The `content` value of a downstream tool-call result, as scrutinised by
the parser guard `Array.isArray(content) && content.length > 0 &&
typeof content[0].text === 'string'` followed by
`JSON.parse(content[0].text)`. The constructor `textParse r` covers the case
where the guard passes and `r` is the outcome of JSON.parse (none when the
parse throws, which the code catches). This type enumerates only the
outcomes of a guard evaluation that completes normally: when content is a
nonempty array whose first element is null or undefined, the member access
`content[0].text` itself throws a TypeError outside the try block; that
path is modelled by `RawContentEval` and `guardOutcome` below. -/
inductive RawContent where
  | notArray
  | emptyArray
  | noTextField
  | textParse (r : Option Json)

/-- The value container of a series' first point, `ts?.points?.[0]?.value`,
as read by parseTimeSeriesValue, parseTimeSeriesLatestValue and
parseTimeSeriesGroupSum. -/
def pointValue (ts : Json) : Option Json :=
  ((getProp ts "points").bind getIndex0).bind (fun p => getProp p "value")

/-- The numeric reading of a value container: doubleValue when that field is
a number, otherwise Number(int64Value) when int64Value is present, otherwise
nothing. This is the shared field-priority logic of all four parsers. -/
def numericOf (vc : Json) : Option JNum :=
  match getProp vc "doubleValue" with
  | some (.num q) => some (.val q)
  | _ => match getProp vc "int64Value" with
      | some j => some (toNumber j)
      | none => none

/-- The contribution of one series inside parseTimeSeriesValue's reduce
(observability_mcp_api_tools.ts lines 424-435) and the `value` computed per
series in parseTimeSeriesGroupSum (lines 505-513): the numeric reading of
the first point's value container when that container is truthy, 0
otherwise. -/
def seriesValue (ts : Json) : JNum :=
  match pointValue ts with
  | some vc => if truthy (some vc) then (numericOf vc).getD (.val 0) else .val 0
  | none => .val 0

/-- parseTimeSeriesValue (lines 415-442): sums the per-series contributions
over a nonempty parsed array, 0 on every guard failure, parse failure or
empty array. -/
def parseTimeSeriesValue (content : RawContent) : JNum :=
  match content with
  | .textParse (some (.arr (t :: rest))) =>
      (t :: rest).foldl (fun total ts => total.add (seriesValue ts)) (.val 0)
  | _ => .val 0

/-- parseTimeSeriesLatestValue (lines 452-481): reads only the first series
of a nonempty parsed array, 0 otherwise. -/
def parseTimeSeriesLatestValue (content : RawContent) : JNum :=
  match content with
  | .textParse (some (.arr (t :: _))) => seriesValue t
  | _ => .val 0

/-- Lookup in a JS-object model (an association list in insertion order with
the first occurrence of a key authoritative). -/
def recGet {α : Type} : List (String × α) → String → Option α
  | [], _ => none
  | p :: r, k => if p.1 = k then some p.2 else recGet r k

/-- JS object assignment `o[k] = v`: updates the existing entry in place,
or appends a new entry (insertion order). -/
def recSet {α : Type} : List (String × α) → String → α → List (String × α)
  | [], k, v => [(k, v)]
  | p :: r, k, v => if p.1 = k then (k, v) :: r else p :: recSet r k v

/-- JS Object.keys: the keys in insertion order. On the records this
development builds keys are unique; dedup makes the model total on arbitrary
association lists. -/
def recKeys {α : Type} (r : List (String × α)) : List String :=
  (r.map Prod.fst).dedup

/-- The JS `x || 0` read of a possibly-absent numeric record entry
(`totals[groupValue] || 0`): an absent entry, a stored NaN and a stored 0
all read as 0. -/
def orZero : Option JNum → JNum
  | some (.val q) => .val q
  | _ => .val 0

/-- JS property-key coercion for the grouping value. Labels in the
time-series data model are strings, which this handles exactly; the other
cases follow JS ToString in shape (number rendering simplified — no label
value in this data is a non-string). -/
def jsKeyString : Json → String
  | .str s => s
  | .null => "null"
  | .bool true => "true"
  | .bool false => "false"
  | .num q => toString q
  | .arr _ => ""
  | .obj _ => "[object Object]"

/-- The labels object of a series: `ts?.metric?.labels || {}`
(observability_mcp_api_tools.ts lines 500 and 541). -/
def labelsOf (ts : Json) : Json :=
  match (getProp ts "metric").bind (fun m => getProp m "labels") with
  | some l => if truthy (some l) then l else .obj []
  | none => .obj []

/-- The grouping value of a series: `labels[labelKey]` when truthy
(`if (!groupValue) continue`), as a record key. -/
def labelValue (labelKey : String) (ts : Json) : Option String :=
  match getProp (labelsOf ts) labelKey with
  | some gv => if truthy (some gv) then some (jsKeyString gv) else none
  | none => none

/-- One iteration of parseTimeSeriesGroupSum's loop (lines 499-515): skip a
series without a truthy grouping label, otherwise add its contribution to
the running total for that label (creating the entry when absent). -/
def groupSumStep (labelKey : String) (acc : List (String × JNum)) (ts : Json) :
    List (String × JNum) :=
  match labelValue labelKey ts with
  | none => acc
  | some k => recSet acc k ((orZero (recGet acc k)).add (seriesValue ts))

/-- The loop of parseTimeSeriesGroupSum over the series array. -/
def groupSumAux (labelKey : String) : List Json → List (String × JNum) → List (String × JNum)
  | [], acc => acc
  | ts :: rest, acc => groupSumAux labelKey rest (groupSumStep labelKey acc ts)

/-- parseTimeSeriesGroupSum (lines 490-522): per-label sums of the series
contributions; an empty mapping on guard failure, parse failure or a parse
result that is not a nonempty array. -/
def parseTimeSeriesGroupSum (content : RawContent) (labelKey : String) :
    List (String × JNum) :=
  match content with
  | .textParse (some (.arr (t :: rest))) => groupSumAux labelKey (t :: rest) []
  | _ => []

/-- The value container read by parseTimeSeriesGroupLatest (lines 545-547):
`Array.isArray(ts?.points) ? ts.points : []`, then the first point's value. -/
def latestPointValue (ts : Json) : Option Json :=
  match getProp ts "points" with
  | some (.arr ps) => ps.head?.bind (fun p => getProp p "value")
  | _ => none

/-- The numeric value parseTimeSeriesGroupLatest would record for a series:
present only when the first point's value container is truthy and carries a
numeric doubleValue or a present int64Value (lines 547-554); unlike the sum
parser, nothing is recorded otherwise. -/
def latestRecorded (ts : Json) : Option JNum :=
  match latestPointValue ts with
  | some vc => if truthy (some vc) then numericOf vc else none
  | none => none

/-- One iteration of parseTimeSeriesGroupLatest's loop (lines 540-555): skip
a series without a truthy grouping label; skip it when an entry for that
label already exists (`first record wins`); otherwise record the series'
numeric value if it has one. -/
def groupLatestStep (labelKey : String) (acc : List (String × JNum)) (ts : Json) :
    List (String × JNum) :=
  match labelValue labelKey ts with
  | none => acc
  | some k =>
    if (recGet acc k).isSome then acc
    else match latestRecorded ts with
      | some n => recSet acc k n
      | none => acc

/-- The loop of parseTimeSeriesGroupLatest over the series array. -/
def groupLatestAux (labelKey : String) : List Json → List (String × JNum) → List (String × JNum)
  | [], acc => acc
  | ts :: rest, acc => groupLatestAux labelKey rest (groupLatestStep labelKey acc ts)

/-- parseTimeSeriesGroupLatest (lines 531-562): per-label first recorded
value; an empty mapping on guard failure, parse failure or a parse result
that is not a nonempty array. -/
def parseTimeSeriesGroupLatest (content : RawContent) (labelKey : String) :
    List (String × JNum) :=
  match content with
  | .textParse (some (.arr (t :: rest))) => groupLatestAux labelKey (t :: rest) []
  | _ => []

/-! ### Guard evaluation including the throwing path -/

/-- A JS evaluation that either returns a value or ends in an uncaught
exception. -/
inductive JsResult (α : Type) where
  | value (a : α)
  | thrown
deriving DecidableEq

/-- The raw `content` argument as handed to a parser, before the entry
guard is evaluated. Unlike `RawContent`, this type keeps the case in which
the guard itself throws: `firstNullish` is a nonempty content array whose
first element is null or undefined (for example `[null]`), where
`content[0].text` raises a TypeError. `firstNoText` is a first element on
which the member access succeeds but yields no string. -/
inductive RawContentEval where
  | notArray
  | emptyArray
  | firstNullish
  | firstNoText
  | textParse (r : Option Json)

/-- Evaluation of the shared entry guard `Array.isArray(content) &&
content.length > 0 && typeof content[0].text === 'string'` (lines 416, 453,
495 and 536): either the benign outcome the parser body switches on, or the
uncaught TypeError from dereferencing a null or undefined first element —
the guard sits outside the try block, so that exception propagates out of
the parser. -/
def guardOutcome : RawContentEval → JsResult RawContent
  | .notArray => .value .notArray
  | .emptyArray => .value .emptyArray
  | .firstNullish => .thrown
  | .firstNoText => .value .noTextField
  | .textParse r => .value (.textParse r)

/-- parseTimeSeriesValue including its entry-guard evaluation. -/
def runParseTimeSeriesValue (c : RawContentEval) : JsResult JNum :=
  match guardOutcome c with
  | .thrown => .thrown
  | .value r => .value (parseTimeSeriesValue r)

/-- parseTimeSeriesLatestValue including its entry-guard evaluation. -/
def runParseTimeSeriesLatestValue (c : RawContentEval) : JsResult JNum :=
  match guardOutcome c with
  | .thrown => .thrown
  | .value r => .value (parseTimeSeriesLatestValue r)

/-- parseTimeSeriesGroupSum including its entry-guard evaluation. -/
def runParseTimeSeriesGroupSum (c : RawContentEval) (labelKey : String) :
    JsResult (List (String × JNum)) :=
  match guardOutcome c with
  | .thrown => .thrown
  | .value r => .value (parseTimeSeriesGroupSum r labelKey)

/-- parseTimeSeriesGroupLatest including its entry-guard evaluation. -/
def runParseTimeSeriesGroupLatest (c : RawContentEval) (labelKey : String) :
    JsResult (List (String × JNum)) :=
  match guardOutcome c with
  | .thrown => .thrown
  | .value r => .value (parseTimeSeriesGroupLatest r labelKey)

/-! ### Effective time window and widen-window fallback -/

/-- Effective query window, the pattern repeated in every metric tool
(observability_mcp_api_tools.ts lines 83-84, 143-144, 264-265, 347-348,
573-574, 685-686, 764-765, 838-839):
`const end = endTime ? new Date(endTime) : new Date();`
`const start = startTime ? new Date(startTime) : new Date(end.getTime() - 60*60*1000);`
Instants are epoch milliseconds (Date.getTime); a supplied ISO string is
modelled by its parsed epoch value, absence by none (a supplied empty
string is falsy in JS and behaves as absent). -/
def effectiveWindow (startTime endTime : Option ℤ) (now : ℤ) : ℤ × ℤ :=
  let endMs := match endTime with
    | some t => t
    | none => now
  let startMs := match startTime with
    | some t => t
    | none => endMs - 60 * 60 * 1000
  (startMs, endMs)

/-- JS object spread `{ ...a, ...b }`: a's entries first, then b's entries
assigned over them. -/
def spreadMerge (a b : List (String × ℚ)) : List (String × ℚ) :=
  b.foldl (fun acc kv => recSet acc kv.1 kv.2) a

/-- The widen-window fallback of getTopValidatorsByStake (lines 603-613):
when neither bound was supplied and the narrow (1-hour) query grouped fewer
validators than `limit`, the widened (24-hour) results are merged under the
narrow ones, `latestByValidator = { ...widened, ...latestByValidator }` —
narrow overrides wide. The two query results are passed in as the values the
downstream queries returned. -/
def stakeAfterWiden (startTime endTime : Option ℤ) (limit : ℕ)
    (narrow widened : List (String × ℚ)) : List (String × ℚ) :=
  if startTime = none ∧ endTime = none ∧ (recKeys narrow).length < limit then
    spreadMerge widened narrow
  else narrow

/-- The three per-validator count maps getTopProposerSuccessRate works
with. -/
structure ProposerCounts where
  totals : List (String × ℚ)
  proposed : List (String × ℚ)
  missedNextMissed : List (String × ℚ)
deriving DecidableEq

/-- The widen-window fallback of getTopProposerSuccessRate (lines 720-726):
when neither bound was supplied and the narrow totals grouped fewer
validators than `limit`, all three maps are reassigned to the widened
query results wholesale — the narrow results are discarded, not merged. -/
def proposerAfterWiden (startTime endTime : Option ℤ) (limit : ℕ)
    (narrow widened : ProposerCounts) : ProposerCounts :=
  if startTime = none ∧ endTime = none ∧ (recKeys narrow.totals).length < limit then
    widened
  else narrow

/-- The two per-validator count maps getTopCosignerSuccessRate works with. -/
structure CosignerCounts where
  totals : List (String × ℚ)
  successful : List (String × ℚ)
deriving DecidableEq

/-- The widen-window fallback of getTopCosignerSuccessRate (lines 795-800):
same wholesale reassignment as the proposer ranking. -/
def cosignerAfterWiden (startTime endTime : Option ℤ) (limit : ℕ)
    (narrow widened : CosignerCounts) : CosignerCounts :=
  if startTime = none ∧ endTime = none ∧ (recKeys narrow.totals).length < limit then
    widened
  else narrow

/-! ### Formatting and ranking -/

/-- The digit string of `n.toFixed(2)` for the scaled value: rate rendering
used by the success-rate strings. The rate is scaled to hundredths and
rounded half up (the rates produced here are non-negative; exact digit
rendering is not load-bearing for any claim). -/
def toFixed2 (q : ℚ) : String :=
  let n : ℤ := ⌊q * 100 + 1 / 2⌋
  let ip := n / 100
  let fp := (n % 100).toNat
  toString ip ++ "." ++ (if fp < 10 then "0" else "") ++ toString fp

/-- A percentage string `rate.toFixed(2) + "%"`. -/
def pctString (q : ℚ) : String := toFixed2 q ++ "%"

/-- The proposer success-rate decision of getProposerSuccessRate (lines
305-313): `successfulProposals = proposedCount + missedNextMissedCount`,
then a percentage when `totalProposals > 0` and the sentinel otherwise. -/
def proposerSuccessRateString (totalProposals proposedCount missedNextMissedCount : ℚ) :
    String :=
  let successfulProposals := proposedCount + missedNextMissedCount
  if totalProposals > 0 then pctString (successfulProposals / totalProposals * 100)
  else "N/A (0 proposals attempted)"

/-- The cosigner success-rate decision of getCosignerSuccessRate (lines
385-391). -/
def cosignerSuccessRateString (totalCosignatures successfulCosignatures : ℚ) : String :=
  if totalCosignatures > 0 then pctString (successfulCosignatures / totalCosignatures * 100)
  else "N/A (0 cosignatures attempted)"

/-- Model of JS parseFloat as applied to the percentage strings produced
above: an optional sign, an integer part and an optional fractional part are
read and the rest of the string is ignored ("97.50%" reads as 97.5).
Strings with no leading digits read as 0 (JS answers NaN there; the sort
this key feeds runs after the sentinel filter, so such strings never reach
it). -/
def parseFloatQ (s : String) : ℚ :=
  let readNum : List Char → ℚ := fun cs =>
    let intDigits := cs.takeWhile Char.isDigit
    let rest := cs.dropWhile Char.isDigit
    if intDigits.isEmpty then 0
    else
      let ipart : ℚ := (digitsVal intDigits : ℤ)
      match rest with
      | '.' :: rest2 =>
        let fracDigits := rest2.takeWhile Char.isDigit
        ipart + ((digitsVal fracDigits : ℤ) : ℚ) / (10 : ℚ) ^ fracDigits.length
      | _ => ipart
  match s.toList with
  | '-' :: rest => -(readNum rest)
  | '+' :: rest => readNum rest
  | cs => readNum cs

/-- Descending order by a rational key. -/
def descRel {α : Type} (f : α → ℚ) : α → α → Prop := fun a b => f b ≤ f a

instance {α : Type} (f : α → ℚ) : DecidableRel (descRel f) :=
  fun a b => inferInstanceAs (Decidable (f b ≤ f a))

instance {α : Type} (f : α → ℚ) : IsTotal α (descRel f) :=
  ⟨fun a b => le_total (f b) (f a)⟩

instance {α : Type} (f : α → ℚ) : IsTrans α (descRel f) :=
  ⟨fun _ _ _ hab hbc => le_trans hbc hab⟩

/-- Model of `array.sort((a, b) => f(b) - f(a))`: the JS sort is stable and
the comparator is consistent, so the result is the unique stable descending
ordering, which stable insertion sort computes. -/
def sortByDesc {α : Type} (f : α → ℚ) (l : List α) : List α :=
  l.insertionSort (descRel f)

/-- The enrichment record getTopValidatorsByStake and the success-rate
rankings key by public_key: `{ name, zil_address, address }` built from the
validator roster (fields can be absent when the roster labels lack them). -/
structure ValidatorMeta where
  name : Option String
  zil_address : Option String
  address : Option String
deriving DecidableEq

/-- The enrichment record getTopValidatorsByEarnings keys by address:
`{ name, zil_address, public_key }`. -/
structure AddressMeta where
  name : Option String
  zil_address : Option String
  public_key : Option String
deriving DecidableEq

/-- The JS `x || undefined` read of an enrichment field: an absent field and
an empty string both surface as undefined. -/
def orUndef : Option String → Option String
  | some v => if v = "" then none else some v
  | none => none

/-- A ranked stake entry (lines 650-657). -/
structure StakeEntry where
  public_key : String
  total_stake_zil : ℚ
  name : Option String
  zil_address : Option String
  address : Option String
deriving DecidableEq

/-- The ranking tail of getTopValidatorsByStake (lines 650-659):
Object.entries of the per-validator latest stakes, enriched from the roster
(`byPubKey[pk]?.name || undefined` and so on), sorted descending by stake
and truncated to `Math.max(1, limit)`. -/
def rankedStakeEntries (byPubKey : List (String × ValidatorMeta))
    (latestByValidator : List (String × ℚ)) (limit : ℕ) : List StakeEntry :=
  ((sortByDesc (fun e => e.total_stake_zil)
    (latestByValidator.map (fun kv =>
      { public_key := kv.1
        total_stake_zil := kv.2
        name := orUndef ((recGet byPubKey kv.1).bind (fun m => m.name))
        zil_address := orUndef ((recGet byPubKey kv.1).bind (fun m => m.zil_address))
        address := orUndef ((recGet byPubKey kv.1).bind (fun m => m.address)) })))).take
    (max 1 limit)

/-- A ranked earnings entry (lines 871-878). -/
structure EarningsEntry where
  address : String
  total_earnings_zil : ℚ
  name : Option String
  zil_address : Option String
  public_key : Option String
deriving DecidableEq

/-- The ranking tail of getTopValidatorsByEarnings (lines 871-880). -/
def rankedEarningsEntries (byAddress : List (String × AddressMeta))
    (totalsByAddress : List (String × ℚ)) (limit : ℕ) : List EarningsEntry :=
  ((sortByDesc (fun e => e.total_earnings_zil)
    (totalsByAddress.map (fun kv =>
      { address := kv.1
        total_earnings_zil := kv.2
        name := orUndef ((recGet byAddress kv.1).bind (fun m => m.name))
        zil_address := orUndef ((recGet byAddress kv.1).bind (fun m => m.zil_address))
        public_key := orUndef ((recGet byAddress kv.1).bind (fun m => m.public_key)) })))).take
    (max 1 limit)

/-- A ranked proposer success-rate entry (lines 728-738). -/
structure ProposerEntry where
  public_key : String
  proposer_success_rate : String
  name : Option String
  zil_address : Option String
  address : Option String
deriving DecidableEq

/-- The ranking tail of getTopProposerSuccessRate (lines 728-741): per key
of the totals map, the rate string (sentinel when the total is not
positive), enrichment without the `|| undefined` coercion, then the
sentinel filter, the parseFloat sort and the truncation. -/
def topProposerEntries (byPubKey : List (String × ValidatorMeta))
    (totals proposed missedNextMissed : List (String × ℚ)) (limit : ℕ) :
    List ProposerEntry :=
  let entries := (recKeys totals).map (fun pk =>
    let total := (recGet totals pk).getD 0
    let success := (recGet proposed pk).getD 0 + (recGet missedNextMissed pk).getD 0
    { public_key := pk
      proposer_success_rate :=
        if total > 0 then pctString (success / total * 100)
        else "N/A (0 proposals attempted)"
      name := (recGet byPubKey pk).bind (fun m => m.name)
      zil_address := (recGet byPubKey pk).bind (fun m => m.zil_address)
      address := (recGet byPubKey pk).bind (fun m => m.address) : ProposerEntry })
  ((sortByDesc (fun e => parseFloatQ e.proposer_success_rate)
    (entries.filter (fun e => e.proposer_success_rate != "N/A (0 proposals attempted)")))).take
    (max 1 limit)

/-- A ranked cosigner success-rate entry (lines 802-812). -/
structure CosignerEntry where
  public_key : String
  cosigner_success_rate : String
  name : Option String
  zil_address : Option String
  address : Option String
deriving DecidableEq

/-- The ranking tail of getTopCosignerSuccessRate (lines 802-815). -/
def topCosignerEntries (byPubKey : List (String × ValidatorMeta))
    (totals successful : List (String × ℚ)) (limit : ℕ) : List CosignerEntry :=
  let entries := (recKeys totals).map (fun pk =>
    let total := (recGet totals pk).getD 0
    let ok := (recGet successful pk).getD 0
    { public_key := pk
      cosigner_success_rate :=
        if total > 0 then pctString (ok / total * 100)
        else "N/A (0 cosignatures attempted)"
      name := (recGet byPubKey pk).bind (fun m => m.name)
      zil_address := (recGet byPubKey pk).bind (fun m => m.zil_address)
      address := (recGet byPubKey pk).bind (fun m => m.address) : CosignerEntry })
  ((sortByDesc (fun e => parseFloatQ e.cosigner_success_rate)
    (entries.filter (fun e => e.cosigner_success_rate != "N/A (0 cosignatures attempted)")))).take
    (max 1 limit)

/-! ### Spec-side descriptions and input predicates -/

/-- The per-series contribution as the specification describes it (sum mode
of §4.1): the series' points[0] value, read as doubleValue when that is a
number, otherwise Number(int64Value) when int64Value is present, otherwise
0, and 0 when the point or its value container is absent. Stated from the
spec's words, to be compared with `seriesValue` (the code's reduce body). -/
def specSeriesValue (ts : Json) : JNum :=
  match pointValue ts with
  | none => .val 0
  | some vc =>
    match getProp vc "doubleValue" with
    | some (.num q) => .val q
    | _ => match getProp vc "int64Value" with
        | some j => toNumber j
        | none => .val 0

/-- The sum of the spec-side contributions over a series array. -/
def specSum (l : List Json) : JNum :=
  (l.map specSeriesValue).foldr JNum.add (.val 0)

/-- Decides that a series' first point carries only non-negative numeric
data: a numeric doubleValue is non-negative, and an int64Value coerces to a
non-negative number (not NaN). Series without a readable point value pass
vacuously (they contribute 0). -/
def seriesNonnegB (ts : Json) : Bool :=
  match pointValue ts with
  | none => true
  | some vc =>
    match getProp vc "doubleValue" with
    | some (.num q) => 0 ≤ q
    | _ =>
      match getProp vc "int64Value" with
      | some j => match toNumber j with
          | .val q => 0 ≤ q
          | .nan => false
      | none => true

/-- Raw content that does not parse to a nonempty series array: a non-array
content value, an empty content array, a first part without a string text
field, text that fails to parse as JSON, or a parse result that is not a
nonempty array. -/
def noSeriesArray : RawContent → Prop
  | .textParse (some (.arr (_ :: _))) => False
  | _ => True

/-! ### Validator resolution (src/tools/registration.ts) -/

/-- A validator roster record (registration.ts lines 21-26). -/
structure ValidatorData where
  name : String
  public_key : String
  address : String
  zil_address : String
deriving DecidableEq

/-- The JS String.prototype.toLowerCase(), modelled per character (the
identifiers and roster fields in this data are ASCII, where the per-char
map coincides with it). -/
def lowerString (s : String) : String := String.mk (s.data.map Char.toLower)

/-- The per-record test of findValidator (registration.ts lines 58-64),
applied to the already-lowercased identifier. -/
def matchesIdentifier (normalizedIdentifier : String) (v : ValidatorData) : Bool :=
  lowerString v.name == normalizedIdentifier ||
  lowerString v.public_key == normalizedIdentifier ||
  lowerString v.address == normalizedIdentifier ||
  lowerString v.zil_address == normalizedIdentifier

/-- findValidator (registration.ts lines 56-65): the first roster record one
of whose four fields equals the identifier case-insensitively. -/
def findValidator (identifier : String) (validators : List ValidatorData) :
    Option ValidatorData :=
  validators.find? (matchesIdentifier (lowerString identifier))

/-- The apostrophe character, used in the not-found reason text. -/
def sq : String := String.singleton (Char.ofNat 39)

/-- The reason string of the validator-not-found envelope:
`Validator '<identifier>' not found.` -/
def notFoundReason (identifier : String) : String :=
  "Validator " ++ sq ++ identifier ++ sq ++ " not found."

/-- The outcome of the resolution wrapper: either the handler proceeds with
the resolved record, or a structured failure envelope (a JSON body with a
status and a reason field) is returned to the caller. The wrapper never
throws: it is a total function into this type. -/
inductive ResolutionOutcome where
  | proceed (v : ValidatorData)
  | failedEnvelope (status : String) (reason : String)
deriving DecidableEq

/-- withValidatorResolution (registration.ts lines 34-49): an empty roster
and a failed lookup each produce a structured failed envelope; otherwise the
wrapped handler runs with the resolved record. -/
def withValidatorResolution (identifier : String) (validators : List ValidatorData) :
    ResolutionOutcome :=
  if validators.isEmpty then
    .failedEnvelope "failed" "Could not fetch validator list from the monitoring service."
  else
    match findValidator identifier validators with
    | none => .failedEnvelope "failed" (notFoundReason identifier)
    | some v => .proceed v

/-- The first three records of the static roster in src/tools/validators.ts,
used as a concrete roster fixture. -/
def torchRecord : ValidatorData :=
  { name := "TorchWallet.io"
    public_key := "0xa7bb1acf64dc1ecb1419c7e091e815a9ac84dc64603a01d69947e5e0f7c3b9268593e260cfd91ca8b84d9ebb56cc8b9a"
    address := "0xbb2cb8b573ec1ec4f77953128df7f1d08d9c34df"
    zil_address := "zil1hvkt3dtnas0vfame2vfgmal36zxecdxln4rp39" }

/-- A three-record roster fixture from src/tools/validators.ts. -/
def rosterSample : List ValidatorData :=
  [{ name := "Moonlet"
     public_key := "0xac184aafd750179178519b13b25a12c3bf18348a66de384751b8d1554f637ae6e667592b20580864029084917eed9e3f"
     address := "0xf35e17333bd4ad7b11e18f750afbcce14e4101b7"
     zil_address := "zil17d0pwvem6jkhky0p3a6s477vu98yzqdh80g42p" },
   { name := "Plunderswap"
     public_key := "0xa917cff83bb7accb48dd8cb2032f0a4b8c042fca3a5e079e2063c3bc4b790d597eb49c2a9d5b36447fd5479d6a439d12"
     address := "0x691682fca60fa6b702a0a69f60d045c08f404220"
     zil_address := "zil1dytg9l9xp7ntwq4q560kp5z9cz85qs3qqzv99d" },
   torchRecord]

/-! ### Concrete series fixtures -/

/-- A series fixture: metric labels {validator: "A"} and a first point with
doubleValue 5. -/
def seriesA5 : Json :=
  .obj [("metric", .obj [("labels", .obj [("validator", .str "A")])]),
        ("points", .arr [.obj [("value", .obj [("doubleValue", .num 5)])]])]

/-- A series fixture: metric labels {validator: "A"} and an empty points
array — the series carries the label but no point value. -/
def seriesANoPoints : Json :=
  .obj [("metric", .obj [("labels", .obj [("validator", .str "A")])]),
        ("points", .arr [])]

/-- A series fixture: metric labels {validator: "A"} and a first point with
doubleValue -1. -/
def seriesANeg1 : Json :=
  .obj [("metric", .obj [("labels", .obj [("validator", .str "A")])]),
        ("points", .arr [.obj [("value", .obj [("doubleValue", .num (-1))])]])]

/-! ### Helper lemmas -/

theorem JNum.add_assoc (a b c : JNum) : (a.add b).add c = a.add (b.add c) := by
  cases a <;> cases b <;> cases c <;> simp [JNum.add, Rat.add_assoc]

theorem JNum.add_val_zero (a : JNum) : a.add (.val 0) = a := by
  cases a <;> simp [JNum.add]

theorem JNum.val_zero_add (a : JNum) : (JNum.val 0).add a = a := by
  cases a <;> simp [JNum.add]

theorem recGet_recSet_self {α : Type} (r : List (String × α)) (k : String) (v : α) :
    recGet (recSet r k v) k = some v := by
  induction r with
  | nil => simp [recSet, recGet]
  | cons p rest ih =>
    by_cases h : p.1 = k
    · simp [recSet, recGet, h]
    · simp [recSet, recGet, h, ih]

theorem recGet_recSet_ne {α : Type} (r : List (String × α)) (k k' : String) (v : α)
    (h : k' ≠ k) : recGet (recSet r k' v) k = recGet r k := by
  induction r with
  | nil => simp [recSet, recGet, h]
  | cons p rest ih =>
    by_cases hp : p.1 = k'
    · simp [recSet, recGet, hp, h]
    · simp [recSet, recGet, hp, ih]

theorem recGet_eq_none_iff {α : Type} (r : List (String × α)) (k : String) :
    recGet r k = none ↔ k ∉ r.map Prod.fst := by
  induction r with
  | nil => simp [recGet]
  | cons p rest ih =>
    by_cases hp : p.1 = k
    · simp [recGet, hp]
    · simp [recGet, hp, ih, Ne.symm hp]

theorem spreadMerge_get_of_none (a b : List (String × ℚ)) (k : String)
    (h : recGet b k = none) : recGet (spreadMerge a b) k = recGet a k := by
  induction b generalizing a with
  | nil => rfl
  | cons kv rest ih =>
    simp only [recGet] at h
    by_cases hk : kv.1 = k
    · simp [hk] at h
    · simp only [hk, if_false] at h
      have : spreadMerge a (kv :: rest) = spreadMerge (recSet a kv.1 kv.2) rest := rfl
      rw [this, ih _ h, recGet_recSet_ne _ _ _ _ hk]

theorem spreadMerge_get_of_some (b : List (String × ℚ)) :
    ∀ (a : List (String × ℚ)) (k : String) (v : ℚ),
      (b.map Prod.fst).Nodup → recGet b k = some v →
      recGet (spreadMerge a b) k = some v := by
  induction b with
  | nil => intro a k v _ h; simp [recGet] at h
  | cons kv rest ih =>
    intro a k v hnd h
    simp only [recGet] at h
    have hstep : spreadMerge a (kv :: rest) = spreadMerge (recSet a kv.1 kv.2) rest := rfl
    simp only [List.map_cons, List.nodup_cons] at hnd
    by_cases hk : kv.1 = k
    · simp only [hk, if_true] at h
      have hrest : recGet rest k = none := by
        rw [recGet_eq_none_iff, ← hk]
        exact hnd.1
      rw [hstep, spreadMerge_get_of_none _ _ _ hrest, hk, recGet_recSet_self, h]
    · simp only [hk, if_false] at h
      rw [hstep, ih (recSet a kv.1 kv.2) k v hnd.2 h]

theorem numericOf_of_not_truthy (vc : Json) (h : truthy (some vc) = false) :
    numericOf vc = none := by
  cases vc <;> first
    | rfl
    | simp [truthy] at h

theorem specSeriesValue_getD (ts : Json) :
    specSeriesValue ts = (match pointValue ts with
      | some vc => (numericOf vc).getD (.val 0)
      | none => .val 0) := by
  unfold specSeriesValue numericOf
  cases pointValue ts with
  | none => rfl
  | some vc =>
    cases hd : getProp vc "doubleValue" with
    | none =>
      cases hi : getProp vc "int64Value" <;> simp only [hd, hi] <;> rfl
    | some j =>
      cases j <;> cases hi : getProp vc "int64Value" <;> simp only [hd, hi] <;> rfl

theorem seriesValue_eq_spec (ts : Json) : seriesValue ts = specSeriesValue ts := by
  rw [specSeriesValue_getD]
  unfold seriesValue
  cases pointValue ts with
  | none => rfl
  | some vc =>
    cases ht : truthy (some vc) with
    | true => simp [ht]
    | false => simp [ht, numericOf_of_not_truthy vc ht]

theorem foldl_add_seriesValue (l : List Json) (a : JNum) :
    l.foldl (fun t ts => t.add (seriesValue ts)) a = a.add (specSum l) := by
  induction l generalizing a with
  | nil => simp [specSum, JNum.add_val_zero]
  | cons t rest ih =>
    simp only [List.foldl_cons, ih, specSum, List.map_cons, List.foldr_cons]
    rw [seriesValue_eq_spec, JNum.add_assoc]

theorem sortByDesc_perm {α : Type} (f : α → ℚ) (l : List α) :
    List.Perm (sortByDesc f l) l :=
  List.perm_insertionSort _ _

theorem sortByDesc_sorted {α : Type} (f : α → ℚ) (l : List α) :
    List.Sorted (descRel f) (sortByDesc f l) :=
  List.sorted_insertionSort _ _

theorem mem_sortByDesc {α : Type} (f : α → ℚ) (l : List α) (x : α) :
    x ∈ sortByDesc f l ↔ x ∈ l :=
  (sortByDesc_perm f l).mem_iff

theorem recGet_recSet_cases {α : Type} (r : List (String × α)) (k k' : String) (v' v : α)
    (h : recGet (recSet r k' v') k = some v) : (k = k' ∧ v = v') ∨ recGet r k = some v := by
  by_cases hk : k = k'
  · subst hk
    rw [recGet_recSet_self] at h
    exact Or.inl ⟨rfl, (Option.some_inj.mp h).symm⟩
  · rw [recGet_recSet_ne _ _ _ _ (Ne.symm hk)] at h
    exact Or.inr h

theorem parseGroupLatest_eq_aux (key : String) (l : List Json) :
    parseTimeSeriesGroupLatest (.textParse (some (.arr l))) key = groupLatestAux key l [] := by
  cases l <;> rfl

theorem parseGroupSum_eq_aux (key : String) (l : List Json) :
    parseTimeSeriesGroupSum (.textParse (some (.arr l))) key = groupSumAux key l [] := by
  cases l <;> rfl

theorem groupLatestAux_append (key : String) (l1 l2 : List Json) (acc : List (String × JNum)) :
    groupLatestAux key (l1 ++ l2) acc = groupLatestAux key l2 (groupLatestAux key l1 acc) := by
  induction l1 generalizing acc with
  | nil => rfl
  | cons t rest ih => simp [groupLatestAux, ih]

theorem groupLatestStep_get_of_isSome (key k : String) (acc : List (String × JNum)) (ts : Json)
    (h : (recGet acc k).isSome = true) :
    recGet (groupLatestStep key acc ts) k = recGet acc k := by
  unfold groupLatestStep
  cases hl : labelValue key ts with
  | none => rfl
  | some k' =>
    by_cases hk : k' = k
    · subst hk
      simp [h]
    · cases hs : (recGet acc k').isSome with
      | true => simp [hs]
      | false =>
        simp only [hs, Bool.false_eq_true, if_false]
        cases latestRecorded ts with
        | some n => exact recGet_recSet_ne _ _ _ _ hk
        | none => rfl

theorem groupLatestStep_get_of_not_carrying (key k : String) (acc : List (String × JNum))
    (ts : Json) (h : labelValue key ts ≠ some k) :
    recGet (groupLatestStep key acc ts) k = recGet acc k := by
  unfold groupLatestStep
  cases hl : labelValue key ts with
  | none => rfl
  | some k' =>
    have hk : k' ≠ k := fun he => h (by rw [hl, he])
    cases hs : (recGet acc k').isSome with
    | true => simp [hs]
    | false =>
      simp only [hs, Bool.false_eq_true, if_false]
      cases latestRecorded ts with
      | some n => exact recGet_recSet_ne _ _ _ _ hk
      | none => rfl

theorem groupLatestStep_get_of_no_record (key k : String) (acc : List (String × JNum))
    (ts : Json) (h : labelValue key ts = some k → latestRecorded ts = none) :
    recGet (groupLatestStep key acc ts) k = recGet acc k := by
  by_cases hl : labelValue key ts = some k
  · unfold groupLatestStep
    rw [hl]
    cases hs : (recGet acc k).isSome with
    | true => simp [hs]
    | false => simp [hs, h hl]
  · exact groupLatestStep_get_of_not_carrying key k acc ts hl

theorem groupLatestStep_get_records (key k : String) (acc : List (String × JNum)) (ts : Json)
    (n : JNum) (hl : labelValue key ts = some k) (hacc : recGet acc k = none)
    (hr : latestRecorded ts = some n) :
    recGet (groupLatestStep key acc ts) k = some n := by
  simp only [groupLatestStep, hl, hacc, hr, Option.isSome_none, Bool.false_eq_true, if_false]
  exact recGet_recSet_self _ _ _

theorem groupLatestAux_get_of_some (key k : String) (l : List Json) :
    ∀ (acc : List (String × JNum)) (v : JNum), recGet acc k = some v →
      recGet (groupLatestAux key l acc) k = some v := by
  induction l with
  | nil => intro acc v h; exact h
  | cons t rest ih =>
    intro acc v h
    have hs : (recGet acc k).isSome = true := by rw [h]; rfl
    unfold groupLatestAux
    rw [ih _ v (by rw [groupLatestStep_get_of_isSome key k acc t hs, h])]

theorem groupLatestAux_get_of_no_record (key k : String) (l : List Json)
    (hall : ∀ ts ∈ l, labelValue key ts = some k → latestRecorded ts = none) :
    ∀ acc : List (String × JNum),
      recGet (groupLatestAux key l acc) k = recGet acc k := by
  induction l with
  | nil => intro acc; rfl
  | cons t rest ih =>
    intro acc
    unfold groupLatestAux
    rw [ih (fun ts hts => hall ts (List.mem_cons_of_mem t hts))]
    exact groupLatestStep_get_of_no_record key k acc t (hall t (List.mem_cons_self t rest))

theorem groupSumStep_get_of_not_carrying (key k : String) (acc : List (String × JNum))
    (ts : Json) (h : labelValue key ts ≠ some k) :
    recGet (groupSumStep key acc ts) k = recGet acc k := by
  unfold groupSumStep
  cases hl : labelValue key ts with
  | none => rfl
  | some k' =>
    have hk : k' ≠ k := fun he => h (by rw [hl, he])
    exact recGet_recSet_ne _ _ _ _ hk

theorem groupSumStep_get_of_carrying (key k : String) (acc : List (String × JNum)) (ts : Json)
    (hl : labelValue key ts = some k) :
    recGet (groupSumStep key acc ts) k =
      some ((orZero (recGet acc k)).add (seriesValue ts)) := by
  unfold groupSumStep
  rw [hl]
  exact recGet_recSet_self _ _ _

theorem seriesValue_of_pointValue_none (ts : Json) (h : pointValue ts = none) :
    seriesValue ts = .val 0 := by
  unfold seriesValue
  rw [h]

theorem groupSumAux_get_zero_stable (key k : String) (l : List Json)
    (hall : ∀ ts ∈ l, labelValue key ts = some k → seriesValue ts = .val 0) :
    ∀ acc : List (String × JNum), recGet acc k = some (.val 0) →
      recGet (groupSumAux key l acc) k = some (.val 0) := by
  induction l with
  | nil => intro acc h; exact h
  | cons t rest ih =>
    intro acc h
    unfold groupSumAux
    refine ih (fun ts hts => hall ts (List.mem_cons_of_mem t hts)) _ ?_
    by_cases hl : labelValue key t = some k
    · rw [groupSumStep_get_of_carrying key k acc t hl, h, hall t (List.mem_cons_self t rest) hl]
      simp [orZero, JNum.add]
    · rw [groupSumStep_get_of_not_carrying key k acc t hl, h]

theorem groupSumAux_get_zero (key k : String) (l : List Json)
    (hall : ∀ ts ∈ l, labelValue key ts = some k → seriesValue ts = .val 0)
    (hex : ∃ ts ∈ l, labelValue key ts = some k) :
    ∀ acc : List (String × JNum),
      (recGet acc k = none ∨ recGet acc k = some (.val 0)) →
      recGet (groupSumAux key l acc) k = some (.val 0) := by
  induction l with
  | nil =>
    rcases hex with ⟨ts, hts, _⟩
    exact absurd hts (List.not_mem_nil ts)
  | cons t rest ih =>
    intro acc hacc
    unfold groupSumAux
    by_cases hl : labelValue key t = some k
    · refine groupSumAux_get_zero_stable key k rest
        (fun ts hts => hall ts (List.mem_cons_of_mem t hts)) _ ?_
      rw [groupSumStep_get_of_carrying key k acc t hl,
        hall t (List.mem_cons_self t rest) hl]
      rcases hacc with h0 | h0 <;> rw [h0] <;> simp [orZero, JNum.add]
    · have hex' : ∃ ts ∈ rest, labelValue key ts = some k := by
        rcases hex with ⟨ts, hts, hcar⟩
        rcases List.mem_cons.mp hts with he | he
        · exact absurd (he ▸ hcar) hl
        · exact ⟨ts, he, hcar⟩
      refine ih (fun ts hts => hall ts (List.mem_cons_of_mem t hts)) hex' _ ?_
      rw [groupSumStep_get_of_not_carrying key k acc t hl]
      exact hacc

theorem seriesValue_nonneg_of_seriesNonnegB (ts : Json) (h : seriesNonnegB ts = true) :
    ∃ q, seriesValue ts = .val q ∧ 0 ≤ q := by
  unfold seriesNonnegB at h
  unfold seriesValue numericOf
  cases hpv : pointValue ts with
  | none => exact ⟨0, rfl, le_refl 0⟩
  | some vc =>
    simp only [hpv] at h
    cases ht : truthy (some vc) with
    | false => exact ⟨0, by simp [ht], le_refl 0⟩
    | true =>
      simp only [ht, if_true]
      cases hd : getProp vc "doubleValue" with
      | none =>
        simp only [hd] at h ⊢
        cases hi : getProp vc "int64Value" with
        | none =>
          simp only [hi]
          exact ⟨0, rfl, le_refl 0⟩
        | some j2 =>
          simp only [hi] at h ⊢
          cases htn : toNumber j2 with
          | nan =>
            simp only [htn] at h
            exact absurd h Bool.false_ne_true
          | val q2 =>
            simp only [htn] at h ⊢
            exact ⟨q2, rfl, by simpa using h⟩
      | some j =>
        simp only [hd] at h ⊢
        cases j
        case num q =>
          exact ⟨q, rfl, by simpa using h⟩
        all_goals
          simp only at h ⊢
        all_goals
          cases hi : getProp vc "int64Value" with
          | none =>
            simp only [hi]
            exact ⟨0, rfl, le_refl 0⟩
          | some j2 =>
            simp only [hi] at h ⊢
            cases htn : toNumber j2 with
            | nan =>
            simp only [htn] at h
            exact absurd h Bool.false_ne_true
            | val q2 =>
              simp only [htn] at h ⊢
              exact ⟨q2, rfl, by simpa using h⟩

theorem foldl_add_nonneg (l : List Json) (hall : ∀ ts ∈ l, seriesNonnegB ts = true) :
    ∀ a : ℚ, 0 ≤ a →
      ∃ q : ℚ, l.foldl (fun (t : JNum) ts => t.add (seriesValue ts)) (JNum.val a)
        = .val q ∧ 0 ≤ q := by
  induction l with
  | nil => intro a ha; exact ⟨a, rfl, ha⟩
  | cons t rest ih =>
    intro a ha
    rcases seriesValue_nonneg_of_seriesNonnegB t (hall t (List.mem_cons_self t rest)) with
      ⟨q2, hq2, hq2n⟩
    have hstep : (JNum.val a).add (seriesValue t) = .val (a + q2) := by rw [hq2]; rfl
    rcases ih (fun ts hts => hall ts (List.mem_cons_of_mem t hts)) (a + q2)
      (add_nonneg ha hq2n) with ⟨q, hq, hqn⟩
    refine ⟨q, ?_, hqn⟩
    rw [List.foldl_cons, hstep]
    exact hq

theorem groupSumStep_get_inv (key : String) (acc : List (String × JNum)) (t : Json)
    (k' : String) (v' : JNum) (h : recGet (groupSumStep key acc t) k' = some v') :
    recGet acc k' = some v' ∨ v' = (orZero (recGet acc k')).add (seriesValue t) := by
  by_cases hl : labelValue key t = some k'
  · rw [groupSumStep_get_of_carrying key k' acc t hl] at h
    exact Or.inr (Option.some_inj.mp h).symm
  · rw [groupSumStep_get_of_not_carrying key k' acc t hl] at h
    exact Or.inl h

theorem groupSumAux_nonneg (key : String) (l : List Json)
    (hall : ∀ ts ∈ l, seriesNonnegB ts = true) :
    ∀ acc : List (String × JNum),
      (∀ k v, recGet acc k = some v → ∃ q, v = .val q ∧ 0 ≤ q) →
      ∀ k v, recGet (groupSumAux key l acc) k = some v → ∃ q, v = .val q ∧ 0 ≤ q := by
  induction l with
  | nil => intro acc hinv k v h; exact hinv k v h
  | cons t rest ih =>
    intro acc hinv k v h
    refine ih (fun ts hts => hall ts (List.mem_cons_of_mem t hts)) _ ?_ k v h
    intro k' v' h'
    rcases groupSumStep_get_inv key acc t k' v' h' with hold | hnew
    · exact hinv k' v' hold
    · rcases seriesValue_nonneg_of_seriesNonnegB t (hall t (List.mem_cons_self t rest)) with
        ⟨q2, hq2, hq2n⟩
      have horz : ∃ q1, orZero (recGet acc k') = .val q1 ∧ 0 ≤ q1 := by
        cases hg : recGet acc k' with
        | none => exact ⟨0, rfl, le_refl 0⟩
        | some w =>
          rcases hinv k' w hg with ⟨q1, hw, hq1⟩
          subst hw
          exact ⟨q1, rfl, hq1⟩
      rcases horz with ⟨q1, hq1e, hq1n⟩
      refine ⟨q1 + q2, ?_, add_nonneg hq1n hq2n⟩
      rw [hnew, hq1e, hq2]
      rfl

theorem topProposerEntries_excludes_zero (byPubKey : List (String × ValidatorMeta))
    (totals proposed missedNextMissed : List (String × ℚ)) (limit : ℕ) (pk : String)
    (hz : recGet totals pk = some 0) :
    ∀ e ∈ topProposerEntries byPubKey totals proposed missedNextMissed limit,
      e.public_key ≠ pk := by
  intro e he heq
  simp only [topProposerEntries] at he
  have he1 := List.take_subset _ _ he
  rw [mem_sortByDesc] at he1
  have hpred := List.of_mem_filter he1
  have he3 := List.mem_of_mem_filter he1
  rcases List.mem_map.mp he3 with ⟨pk', _, hfe⟩
  subst hfe
  simp only at heq
  subst heq
  simp only [hz] at hpred
  simp at hpred

theorem topCosignerEntries_excludes_zero (byPubKey : List (String × ValidatorMeta))
    (totals successful : List (String × ℚ)) (limit : ℕ) (pk : String)
    (hz : recGet totals pk = some 0) :
    ∀ e ∈ topCosignerEntries byPubKey totals successful limit, e.public_key ≠ pk := by
  intro e he heq
  simp only [topCosignerEntries] at he
  have he1 := List.take_subset _ _ he
  rw [mem_sortByDesc] at he1
  have hpred := List.of_mem_filter he1
  have he3 := List.mem_of_mem_filter he1
  rcases List.mem_map.mp he3 with ⟨pk', _, hfe⟩
  subst hfe
  simp only at heq
  subst heq
  simp only [hz] at hpred
  simp at hpred

/-! ### Claim theorems -/

/-- C3: for every metric query with optional startTime/endTime, the
effective window end is endTime when supplied and the current time
otherwise, and the effective start is startTime when supplied and exactly
one hour before the effective end otherwise; in particular, when only
endTime is supplied the effective start is exactly one hour before that
endTime, not one hour before the current time. -/
theorem claim_C3_effective_window :
    (∀ (startTime endTime : Option ℤ) (now : ℤ),
        (effectiveWindow startTime endTime now).2 = endTime.getD now ∧
        (effectiveWindow startTime endTime now).1 =
          startTime.getD (endTime.getD now - 60 * 60 * 1000)) ∧
    (∀ (e now : ℤ), (effectiveWindow none (some e) now).1 = e - 60 * 60 * 1000) ∧
    (∀ (e now : ℤ), e ≠ now →
        (effectiveWindow none (some e) now).1 ≠ now - 60 * 60 * 1000) := by
  refine ⟨fun st et now => ⟨?_, ?_⟩, fun e now => rfl, fun e now h hc => ?_⟩
  · cases et <;> rfl
  · cases st <;> cases et <;> rfl
  · have he : e - 60 * 60 * 1000 = now - 60 * 60 * 1000 := hc
    exact h (by omega)

/-- Concrete instantiation of C3: with endTime 7200000 ms and current time
9999999 ms, the effective window ends at the endTime and starts exactly one
hour before it, not one hour before the current time. -/
theorem claim_C3_effective_window_witness :
    (effectiveWindow none (some 7200000) 9999999).2 = 7200000 ∧
    (effectiveWindow none (some 7200000) 9999999).1 = 7200000 - 60 * 60 * 1000 ∧
    (effectiveWindow none (some 7200000) 9999999).1 ≠ 9999999 - 60 * 60 * 1000 :=
  ⟨(claim_C3_effective_window.1 none (some 7200000) 9999999).1,
   claim_C3_effective_window.2.1 7200000 9999999,
   claim_C3_effective_window.2.2 7200000 9999999 (by decide)⟩

/-- C4: sum-mode extraction returns the sum over all series in the parsed
array of each series' points[0] value, where a series contributes its
doubleValue when that is a number, otherwise Number(int64Value) when
int64Value is present, otherwise 0; and when the text fails to parse as
JSON or the array is empty, the result is 0. -/
theorem claim_C4_sum_extraction :
    (∀ l : List Json, parseTimeSeriesValue (.textParse (some (.arr l))) = specSum l) ∧
    parseTimeSeriesValue (.textParse none) = .val 0 ∧
    parseTimeSeriesValue (.textParse (some (.arr []))) = .val 0 := by
  refine ⟨fun l => ?_, rfl, rfl⟩
  cases l with
  | nil => rfl
  | cons t rest =>
    calc parseTimeSeriesValue (.textParse (some (.arr (t :: rest))))
        = (t :: rest).foldl (fun total ts => total.add (seriesValue ts)) (.val 0) := rfl
      _ = (JNum.val 0).add (specSum (t :: rest)) := foldl_add_seriesValue _ _
      _ = specSum (t :: rest) := JNum.val_zero_add _

theorem noSeriesArray_returns_empty (r : RawContent) (key : String) (h : noSeriesArray r) :
    parseTimeSeriesGroupSum r key = [] ∧
    parseTimeSeriesGroupLatest r key = [] ∧
    parseTimeSeriesValue r = .val 0 ∧
    parseTimeSeriesLatestValue r = .val 0 := by
  cases r with
  | notArray => exact ⟨rfl, rfl, rfl, rfl⟩
  | emptyArray => exact ⟨rfl, rfl, rfl, rfl⟩
  | noTextField => exact ⟨rfl, rfl, rfl, rfl⟩
  | textParse o =>
    cases o with
    | none => exact ⟨rfl, rfl, rfl, rfl⟩
    | some j =>
      cases j with
      | arr xs =>
        cases xs with
        | nil => exact ⟨rfl, rfl, rfl, rfl⟩
        | cons t rest => exact False.elim h
      | null => exact ⟨rfl, rfl, rfl, rfl⟩
      | bool b => exact ⟨rfl, rfl, rfl, rfl⟩
      | num q => exact ⟨rfl, rfl, rfl, rfl⟩
      | str s => exact ⟨rfl, rfl, rfl, rfl⟩
      | obj fields => exact ⟨rfl, rfl, rfl, rfl⟩

/-- C7 counterexample: a nonempty content array whose first element is null
or undefined (for example `[null]`) makes all four parsers throw — the
typeof guard dereferences `content[0].text` outside the try block, so the
TypeError propagates instead of 0 or an empty mapping being returned. Not
every input value is handled without raising. -/
theorem claim_C7_counterexample :
    runParseTimeSeriesGroupSum .firstNullish "validator" = .thrown ∧
    runParseTimeSeriesGroupLatest .firstNullish "validator" = .thrown ∧
    runParseTimeSeriesValue .firstNullish = .thrown ∧
    runParseTimeSeriesLatestValue .firstNullish = .thrown ∧
    (JsResult.thrown : JsResult JNum) ≠ .value (.val 0) ∧
    (JsResult.thrown : JsResult (List (String × JNum))) ≠ .value [] :=
  ⟨rfl, rfl, rfl, rfl, by decide, by decide⟩

/-- C7 amended: a nonempty content array whose first element is null or
undefined makes all four parsers throw a TypeError (the typeof guard runs
outside the try block); on every other input whose guard outcome is not a
nonempty parsed series array — non-array content, an empty content array, a
first part without a string text field, text that fails to parse as JSON,
or a parse result that is not a nonempty array — the grouped aggregators
return the empty mapping and the single-value extractors return 0 without
raising. -/
theorem claim_C7_amended (c : RawContentEval) (key : String) :
    (c = .firstNullish →
      runParseTimeSeriesGroupSum c key = .thrown ∧
      runParseTimeSeriesGroupLatest c key = .thrown ∧
      runParseTimeSeriesValue c = .thrown ∧
      runParseTimeSeriesLatestValue c = .thrown) ∧
    (∀ r : RawContent, guardOutcome c = .value r → noSeriesArray r →
      runParseTimeSeriesGroupSum c key = .value [] ∧
      runParseTimeSeriesGroupLatest c key = .value [] ∧
      runParseTimeSeriesValue c = .value (.val 0) ∧
      runParseTimeSeriesLatestValue c = .value (.val 0)) := by
  constructor
  · intro hc
    subst hc
    exact ⟨rfl, rfl, rfl, rfl⟩
  · intro r hr hm
    have h := noSeriesArray_returns_empty r key hm
    simp only [runParseTimeSeriesGroupSum, runParseTimeSeriesGroupLatest,
      runParseTimeSeriesValue, runParseTimeSeriesLatestValue, hr]
    exact ⟨by rw [h.1], by rw [h.2.1], by rw [h.2.2.1], by rw [h.2.2.2]⟩

/-- Concrete instantiation of the amended C7 at a failed JSON parse. -/
theorem claim_C7_amended_witness :
    runParseTimeSeriesGroupSum (.textParse none) "validator" = .value [] ∧
    runParseTimeSeriesGroupLatest (.textParse none) "validator" = .value [] ∧
    runParseTimeSeriesValue (.textParse none) = .value (.val 0) ∧
    runParseTimeSeriesLatestValue (.textParse none) = .value (.val 0) :=
  (claim_C7_amended (.textParse none) "validator").2 (.textParse none) rfl trivial

/-- C10: a series whose metric labels include the grouping key but whose
first point or its value container is absent still yields an entry for that
label value mapped to 0 in parseTimeSeriesGroupSum: when at least one series
in the array carries the label and every series carrying it lacks a point
value, the result maps the label to 0 rather than omitting it. -/
theorem claim_C10_labeled_valueless_entry (key k : String) (l : List Json)
    (hall : ∀ ts ∈ l, labelValue key ts = some k → pointValue ts = none)
    (hex : ∃ ts ∈ l, labelValue key ts = some k) :
    recGet (parseTimeSeriesGroupSum (.textParse (some (.arr l))) key) k = some (.val 0) := by
  rw [parseGroupSum_eq_aux]
  exact groupSumAux_get_zero key k l
    (fun ts hts hc => seriesValue_of_pointValue_none ts (hall ts hts hc)) hex [] (Or.inl rfl)

/-- Concrete instantiation of C10: a single series carrying label A with an
empty points array appears in the grouped sums with total 0. -/
theorem claim_C10_labeled_valueless_entry_witness :
    recGet (parseTimeSeriesGroupSum (.textParse (some (.arr [seriesANoPoints])))
      "validator") "A" = some (.val 0) :=
  claim_C10_labeled_valueless_entry "validator" "A" [seriesANoPoints]
    (by
      intro ts hts _
      rw [List.mem_singleton] at hts
      subst hts
      rfl)
    ⟨seriesANoPoints, List.mem_singleton.mpr rfl, by decide⟩

/-- C1 counterexample: two series share label A; the first series carrying
the label has an empty points array, so its extracted point value (per the
coercion rules) is 0, yet the grouped-latest result maps A to the second
series' value 5 — the result does not equal the first label-carrying
series' extracted value, and the subsequent series was not ignored. -/
theorem claim_C1_counterexample :
    labelValue "validator" seriesANoPoints = some "A" ∧
    labelValue "validator" seriesA5 = some "A" ∧
    seriesValue seriesANoPoints = .val 0 ∧
    recGet (parseTimeSeriesGroupLatest
      (.textParse (some (.arr [seriesANoPoints, seriesA5]))) "validator") "A"
      = some (.val 5) ∧
    JNum.val 5 ≠ JNum.val 0 :=
  ⟨by decide, by decide, by decide, by decide, by decide⟩

/-- C1 amended: parseTimeSeriesGroupLatest maps each label value to the
value of the first series in array order that both carries that label and
records a numeric first-point value; once such a series is found, every
subsequent series with the same label is ignored regardless of its value,
but a label-carrying series that records no numeric value creates no entry
and does not block a later series from supplying one. -/
theorem claim_C1_amended (key k : String) (n : JNum) (pre post : List Json) (s : Json)
    (hpre : ∀ t ∈ pre, labelValue key t = some k → latestRecorded t = none)
    (hs : labelValue key s = some k) (hr : latestRecorded s = some n) :
    recGet (parseTimeSeriesGroupLatest
      (.textParse (some (.arr (pre ++ s :: post)))) key) k = some n := by
  rw [parseGroupLatest_eq_aux, groupLatestAux_append]
  have h1 : recGet (groupLatestAux key pre []) k = none := by
    rw [groupLatestAux_get_of_no_record key k pre hpre []]
    rfl
  show recGet (groupLatestAux key (s :: post) (groupLatestAux key pre [])) k = some n
  unfold groupLatestAux
  exact groupLatestAux_get_of_some key k post _ n
    (groupLatestStep_get_records key k _ s n hs h1 hr)

/-- Concrete instantiation of the amended C1: the valueless series carrying
label A is skipped and the second series' value 5 is recorded. -/
theorem claim_C1_amended_witness :
    recGet (parseTimeSeriesGroupLatest
      (.textParse (some (.arr [seriesANoPoints, seriesA5]))) "validator") "A"
      = some (.val 5) :=
  claim_C1_amended "validator" "A" (.val 5) [seriesANoPoints] [] seriesA5
    (by
      intro t ht _
      rw [List.mem_singleton] at ht
      subst ht
      rfl)
    (by decide) (by decide)

/-- C9 counterexample: a response whose single series reports doubleValue
-1 makes the sum extractor return -1 and the grouped sum map label A to -1,
so not every aggregated numeric total is non-negative. -/
theorem claim_C9_counterexample :
    parseTimeSeriesValue (.textParse (some (.arr [seriesANeg1]))) = .val (-1) ∧
    recGet (parseTimeSeriesGroupSum (.textParse (some (.arr [seriesANeg1])))
      "validator") "A" = some (.val (-1)) ∧
    ¬ (0 : ℚ) ≤ -1 := by
  have hsv : seriesValue seriesANeg1 = .val (-1) := rfl
  refine ⟨?_, ?_, by norm_num⟩
  · show (JNum.val 0).add (seriesValue seriesANeg1) = JNum.val (-1)
    rw [hsv]
    show JNum.val (0 + -1) = JNum.val (-1)
    norm_num
  · show some ((orZero none).add (seriesValue seriesANeg1)) = some (JNum.val (-1))
    rw [hsv]
    show some (JNum.val (0 + -1)) = some (JNum.val (-1))
    norm_num

/-- C9 amended: when every series' first-point value fields are
non-negative (a numeric doubleValue is at least 0 and an int64Value coerces
to a non-negative number), the sum extractor's total and every entry of the
grouped sums are non-negative. The code performs no clamping, so the
unconditional claim fails on a negative input (see the counterexample). -/
theorem claim_C9_amended (key : String) (l : List Json)
    (hall : ∀ ts ∈ l, seriesNonnegB ts = true) :
    (∃ q, parseTimeSeriesValue (.textParse (some (.arr l))) = .val q ∧ 0 ≤ q) ∧
    (∀ k v, recGet (parseTimeSeriesGroupSum (.textParse (some (.arr l))) key) k = some v →
      ∃ q, v = .val q ∧ 0 ≤ q) := by
  constructor
  · cases l with
    | nil => exact ⟨0, rfl, le_refl 0⟩
    | cons t rest => exact foldl_add_nonneg (t :: rest) hall 0 (le_refl 0)
  · rw [parseGroupSum_eq_aux]
    exact groupSumAux_nonneg key l hall [] (fun k v h => by simp [recGet] at h)

/-- Concrete instantiation of the amended C9 on a series with doubleValue
5. -/
theorem claim_C9_amended_witness :
    (∃ q, parseTimeSeriesValue (.textParse (some (.arr [seriesA5]))) = .val q ∧ 0 ≤ q) ∧
    (∀ k v, recGet (parseTimeSeriesGroupSum (.textParse (some (.arr [seriesA5])))
      "validator") k = some v → ∃ q, v = .val q ∧ 0 ≤ q) :=
  claim_C9_amended "validator" [seriesA5]
    (by
      intro ts hts
      rw [List.mem_singleton] at hts
      subst hts
      decide)

/-- C2 counterexample: with no explicit time range and fewer narrow-window
entities than the limit, the proposer ranking's widen fallback replaces the
count maps with the widened-window results instead of preferring the
narrow value: entity A has narrow total 10 and widened total 20, and the
totals used afterwards carry 20, not 10. -/
theorem claim_C2_counterexample :
    (proposerAfterWiden none none 2
      ⟨[("A", 10)], [], []⟩ ⟨[("A", 20)], [], []⟩).totals = [("A", 20)] ∧
    recGet (proposerAfterWiden none none 2
      ⟨[("A", 10)], [], []⟩ ⟨[("A", 20)], [], []⟩).totals "A" = some 20 ∧
    recGet ([("A", 10)] : List (String × ℚ)) "A" = some 10 ∧
    (20 : ℚ) ≠ 10 :=
  ⟨by decide, by decide, by decide, by norm_num⟩

/-- C2 amended: when the caller supplied neither startTime nor endTime and
the narrow window grouped fewer entities than the limit, the stake ranking
merges the widened results under the narrow ones — narrow values win for
entities present in both windows and widened data only fills gaps — while
the proposer and cosigner rankings replace their count maps with the
widened-window results wholesale, discarding the narrow values. -/
theorem claim_C2_amended :
    (∀ (limit : ℕ) (narrow widened : List (String × ℚ)),
      (narrow.map Prod.fst).Nodup → (recKeys narrow).length < limit →
      (∀ k v, recGet narrow k = some v →
        recGet (stakeAfterWiden none none limit narrow widened) k = some v) ∧
      (∀ k, recGet narrow k = none →
        recGet (stakeAfterWiden none none limit narrow widened) k = recGet widened k)) ∧
    (∀ (limit : ℕ) (narrow widened : ProposerCounts),
      (recKeys narrow.totals).length < limit →
      proposerAfterWiden none none limit narrow widened = widened) ∧
    (∀ (limit : ℕ) (narrow widened : CosignerCounts),
      (recKeys narrow.totals).length < limit →
      cosignerAfterWiden none none limit narrow widened = widened) := by
  refine ⟨fun limit narrow widened hnd hlen => ?_,
    fun limit narrow widened hlen => ?_, fun limit narrow widened hlen => ?_⟩
  · have hw : stakeAfterWiden none none limit narrow widened = spreadMerge widened narrow := by
      simp [stakeAfterWiden, hlen]
    rw [hw]
    exact ⟨fun k v hv => spreadMerge_get_of_some narrow widened k v hnd hv,
      fun k hk => spreadMerge_get_of_none widened narrow k hk⟩
  · simp [proposerAfterWiden, hlen]
  · simp [cosignerAfterWiden, hlen]

/-- Concrete instantiation of the amended C2: entity A present in both
windows keeps its narrow stake 10, entity B only present in the widened
window is filled in with 7, and the proposer fallback replaces its totals
with the widened map. -/
theorem claim_C2_amended_witness :
    recGet (stakeAfterWiden none none 2 [("A", 10)] [("A", 20), ("B", 7)]) "A" = some 10 ∧
    recGet (stakeAfterWiden none none 2 [("A", 10)] [("A", 20), ("B", 7)]) "B" = some 7 ∧
    proposerAfterWiden none none 2 ⟨[("A", 10)], [], []⟩ ⟨[("A", 20)], [], []⟩
      = ⟨[("A", 20)], [], []⟩ :=
  ⟨(claim_C2_amended.1 2 [("A", 10)] [("A", 20), ("B", 7)] (by decide) (by decide)).1
      "A" 10 (by decide),
   by
    rw [(claim_C2_amended.1 2 [("A", 10)] [("A", 20), ("B", 7)] (by decide) (by decide)).2
      "B" (by decide)]
    decide,
   claim_C2_amended.2.1 2 ⟨[("A", 10)], [], []⟩ ⟨[("A", 20)], [], []⟩ (by decide)⟩

/-- C5: a total-attempts count of zero yields the sentinel string
"N/A (0 proposals attempted)" (respectively "N/A (0 cosignatures
attempted)") instead of performing the division, and every entity whose
totals entry is zero is excluded entirely from the proposer and cosigner
top-N success-rate rankings, even when its success counts are also zero. -/
theorem claim_C5_zero_attempts (byPubKey : List (String × ValidatorMeta))
    (totals proposed missedNextMissed successful : List (String × ℚ))
    (limit : ℕ) (pk : String) (hz : recGet totals pk = some 0) :
    (∀ p m : ℚ, proposerSuccessRateString 0 p m = "N/A (0 proposals attempted)") ∧
    (∀ s : ℚ, cosignerSuccessRateString 0 s = "N/A (0 cosignatures attempted)") ∧
    (∀ e ∈ topProposerEntries byPubKey totals proposed missedNextMissed limit,
        e.public_key ≠ pk) ∧
    (∀ e ∈ topCosignerEntries byPubKey totals successful limit, e.public_key ≠ pk) :=
  ⟨fun p m => by simp [proposerSuccessRateString],
   fun s => by simp [cosignerSuccessRateString],
   topProposerEntries_excludes_zero byPubKey totals proposed missedNextMissed limit pk hz,
   topCosignerEntries_excludes_zero byPubKey totals successful limit pk hz⟩

/-- Concrete instantiation of C5: validator X attempted 0 proposals with 0
successes and is absent from the ranking entirely. -/
theorem claim_C5_zero_attempts_witness :
    proposerSuccessRateString 0 0 0 = "N/A (0 proposals attempted)" ∧
    cosignerSuccessRateString 0 0 = "N/A (0 cosignatures attempted)" ∧
    topProposerEntries [] [("X", 0)] [("X", 0)] [] 5 = [] ∧
    topCosignerEntries [] [("X", 0)] [("X", 0)] 5 = [] :=
  ⟨(claim_C5_zero_attempts [] [("X", 0)] [("X", 0)] [] [("X", 0)] 5 "X" (by decide)).1 0 0,
   (claim_C5_zero_attempts [] [("X", 0)] [("X", 0)] [] [("X", 0)] 5 "X" (by decide)).2.1 0,
   by decide, by decide⟩

/-- C6: validator resolution is case-insensitive — identifiers equal up to
lower-casing resolve identically — and returns the first roster record one
of whose name, public_key, address or zil_address fields matches; an empty
roster or a failed lookup is surfaced as a structured failed envelope with
the respective reason, and the wrapper always returns either a resolved
record or such an envelope, never anything thrown. -/
theorem claim_C6_validator_resolution :
    (∀ (id1 id2 : String) (roster : List ValidatorData),
        lowerString id1 = lowerString id2 →
        findValidator id1 roster = findValidator id2 roster) ∧
    (∀ (idf : String) (pre : List ValidatorData) (v : ValidatorData)
        (post : List ValidatorData),
        (∀ w ∈ pre, matchesIdentifier (lowerString idf) w = false) →
        matchesIdentifier (lowerString idf) v = true →
        findValidator idf (pre ++ v :: post) = some v) ∧
    (∀ idf : String, withValidatorResolution idf [] = .failedEnvelope "failed"
        "Could not fetch validator list from the monitoring service.") ∧
    (∀ (idf : String) (roster : List ValidatorData), roster ≠ [] →
        findValidator idf roster = none →
        withValidatorResolution idf roster = .failedEnvelope "failed" (notFoundReason idf)) ∧
    (∀ (idf : String) (roster : List ValidatorData),
        (∃ v, withValidatorResolution idf roster = .proceed v ∧
          findValidator idf roster = some v) ∨
        (∃ reason, withValidatorResolution idf roster = .failedEnvelope "failed" reason)) := by
  refine ⟨fun id1 id2 roster h => ?_, fun idf pre v post => ?_, fun idf => rfl,
    fun idf roster hne hfind => ?_, fun idf roster => ?_⟩
  · unfold findValidator
    rw [h]
  · induction pre with
    | nil =>
      intro _ hv
      simp only [List.nil_append]
      exact List.find?_cons_of_pos _ hv
    | cons w pre' ih =>
      intro hpre hv
      have hw := hpre w (List.mem_cons_self w pre')
      simp only [List.cons_append, findValidator] at ih ⊢
      rw [List.find?_cons_of_neg _ (by simp [hw])]
      exact ih (fun w' hw' => hpre w' (List.mem_cons_of_mem w hw')) hv
  · cases roster with
    | nil => exact absurd rfl hne
    | cons a r => simp [withValidatorResolution, hfind]
  · cases roster with
    | nil => exact Or.inr ⟨_, rfl⟩
    | cons a r =>
      cases hf : findValidator idf (a :: r) with
      | none => exact Or.inr ⟨notFoundReason idf, by simp [withValidatorResolution, hf]⟩
      | some v =>
        refine Or.inl ⟨v, ?_, rfl⟩
        simp [withValidatorResolution, hf]

/-- Concrete instantiation of C6: the lookup "TORCHWALLET.IO", differing
only in case, resolves to the same record as the canonical name
"TorchWallet.io". -/
theorem claim_C6_validator_resolution_witness :
    findValidator "TORCHWALLET.IO" rosterSample
      = findValidator "TorchWallet.io" rosterSample ∧
    findValidator "TorchWallet.io" rosterSample = some torchRecord :=
  ⟨claim_C6_validator_resolution.1 "TORCHWALLET.IO" "TorchWallet.io" rosterSample (by decide),
   by decide⟩

/-- C8: the stake and earnings rankings are sorted in descending order of
the derived value and truncated to at most limit entries (for the
positive limits the tool schema admits); in particular five qualifying
entities at limit 3 yield exactly 3 entries, and stakes {A: 100, B: 250}
at limit 1 yield exactly the entry for B with 250. -/
theorem claim_C8_ranking (byPubKey : List (String × ValidatorMeta))
    (byAddress : List (String × AddressMeta))
    (latest totalsByAddress : List (String × ℚ)) (limit : ℕ) :
    (1 ≤ limit →
      (rankedStakeEntries byPubKey latest limit).length = min limit latest.length) ∧
    List.Sorted (fun a b : StakeEntry => b.total_stake_zil ≤ a.total_stake_zil)
      (rankedStakeEntries byPubKey latest limit) ∧
    (1 ≤ limit →
      (rankedEarningsEntries byAddress totalsByAddress limit).length
        = min limit totalsByAddress.length) ∧
    List.Sorted (fun a b : EarningsEntry => b.total_earnings_zil ≤ a.total_earnings_zil)
      (rankedEarningsEntries byAddress totalsByAddress limit) ∧
    rankedStakeEntries [] [("A", 100), ("B", 250)] 1 =
      [{ public_key := "B", total_stake_zil := 250, name := none, zil_address := none,
         address := none }] ∧
    (rankedEarningsEntries [] [("a", 1), ("b", 5), ("c", 3), ("d", 2), ("e", 4)] 3).length
      = 3 := by
  refine ⟨fun h => ?_, ?_, fun h => ?_, ?_, by decide, by decide⟩
  · unfold rankedStakeEntries
    rw [List.length_take, (sortByDesc_perm _ _).length_eq, List.length_map,
      Nat.max_eq_right h]
  · exact List.Pairwise.sublist (List.take_sublist _ _) (sortByDesc_sorted _ _)
  · unfold rankedEarningsEntries
    rw [List.length_take, (sortByDesc_perm _ _).length_eq, List.length_map,
      Nat.max_eq_right h]
  · exact List.Pairwise.sublist (List.take_sublist _ _) (sortByDesc_sorted _ _)

/-- Concrete instantiation of C8 at limit 3 over five entities and at the
{A: 100, B: 250} example. -/
theorem claim_C8_ranking_witness :
    (rankedEarningsEntries [] [("a", 1), ("b", 5), ("c", 3), ("d", 2), ("e", 4)] 3).length
      = 3 ∧
    rankedStakeEntries [] [("A", 100), ("B", 250)] 1 =
      [{ public_key := "B", total_stake_zil := 250, name := none, zil_address := none,
         address := none }] :=
  ⟨((claim_C8_ranking [] [] [] [("a", 1), ("b", 5), ("c", 3), ("d", 2), ("e", 4)] 3).2.2.1
      (by decide)).trans (by decide),
   (claim_C8_ranking [] [] [("A", 100), ("B", 250)] [] 1).2.2.2.2.1⟩

end InsightsMcp
